import Mathlib

/-!
Verification of the siggrep signature scanner (src/siggrep.cpp).

The development shallowly embeds the program's core:
  - `unhex`            — the nibble decoder (siggrep.cpp, `unhex`)
  - `parse_sig`        — the hex-pattern compiler (siggrep.cpp, `parse_sig`)
  - `compile_narrow` / `compile_wide` / `compile_widebe`
                       — the three literal-string signature loops inside
                         `parse_args` (siggrep.cpp, `parse_args`)
  - `parse_args`       — the command-line state machine (siggrep.cpp, `parse_args`)
  - `count_sig`        — the counting matcher built on `std::search`
                         (siggrep.cpp, `count_sig`)
  - `wmain`            — the driver, with file reading abstracted as an oracle
                         (siggrep.cpp, `wmain`)

Wide characters (`wchar_t`, unsigned 16-bit here) are modelled as `Nat`;
a C wide string is the list of its characters (all nonzero, terminated by
NUL, which the loops in the source check for explicitly). Buffers are
`List Nat` of byte values. Machine casts are explicit `% 2^w` operations.

Specification-side definitions (used to state refinement claims) are
`specNibble`, `specRun` / `compile_hex_pattern` (the spec's four-state
hex-pattern machine), `matchesAt` / `countMatches` (the spec's match
predicate and overlap-counting semantics), and `spec_output` (the output
format).
-/

namespace Siggrep

/-- A signature cell `(byte, is_exact)`: `std::pair<uint8_t, bool>`. -/
abbrev Cell := Nat × Bool

/-- `using Signature = std::vector<std::pair<uint8_t, bool>>;` -/
abbrev Signature := List Cell

/-- Character codes of a string literal, for writing wide strings. -/
def str (s : String) : List Nat := s.data.map Char.toNat

/-- C `isspace` in the default locale: space and 0x09–0x0D. -/
def isspace (c : Nat) : Bool := decide (c = 32 ∨ (9 ≤ c ∧ c ≤ 13))

/-- siggrep.cpp `unhex`: `if (ch >= 0x80 || ch <= 0) return 0xFF;` then the
three `TEST_RANGE`s for `0-9` (48–57), `a-f` (97–102), `A-F` (65–70);
otherwise `0xFF`. (`wchar_t` is unsigned, so `ch <= 0` means `ch == 0`.) -/
def unhex (c : Nat) : Nat :=
  if 0x80 ≤ c ∨ c = 0 then 0xFF
  else if 48 ≤ c ∧ c ≤ 57 then c - 48
  else if 97 ≤ c ∧ c ≤ 102 then c - 97 + 0xa
  else if 65 ≤ c ∧ c ≤ 70 then c - 65 + 0xA
  else 0xFF

/-- The four states of `parse_sig`'s tokenizer (`enum class State`). -/
inductive PState
  | afterSpace
  | afterFirst
  | afterSecond
  | afterWildcard
deriving DecidableEq

/-- The loop body of siggrep.cpp `parse_sig`. The C loop
`while (const auto c = *str++)` stops at the NUL terminator, modelled by the
`c = 0` test; on normal exit the signature is returned unless the state is
`AfterFirst` (dangling nibble), and every `return {}` in the source is the
empty result. -/
def parse_sig_go : PState → Nat → List Cell → List Nat → List Cell
  | st, _, sig, [] => if st = .afterFirst then [] else sig
  | st, nibble, sig, c :: rest =>
    if c = 0 then (if st = .afterFirst then [] else sig)
    else
      match st with
      | .afterSpace =>
        let n := unhex c
        if isspace c then parse_sig_go .afterSpace n sig rest
        else if c = 63 then parse_sig_go .afterWildcard n (sig ++ [(0, false)]) rest
        else if n ≠ 0xFF then parse_sig_go .afterFirst n sig rest
        else []
      | .afterFirst =>
        let second := unhex c
        if second ≠ 0xFF then
          parse_sig_go .afterSecond nibble (sig ++ [((nibble <<< 4) ||| second, true)]) rest
        else []
      | .afterSecond =>
        if isspace c then parse_sig_go .afterSpace nibble sig rest
        else []
      | .afterWildcard =>
        if isspace c then parse_sig_go .afterSpace nibble sig rest
        else if c = 63 then parse_sig_go .afterWildcard nibble sig rest
        else []

/-- siggrep.cpp `parse_sig`: start in `AfterSpace` with an empty signature. -/
def parse_sig (s : List Nat) : List Cell := parse_sig_go .afterSpace 0 [] s

/-- Modelled from the spec (§4.1 Nibble Decoder): the hexadecimal value of a
character of `0-9`, `a-f`, `A-F`, otherwise invalid. Used only to state the
spec's hex-pattern state machine. -/
def specNibble (c : Nat) : Option Nat :=
  if 48 ≤ c ∧ c ≤ 57 then some (c - 48)
  else if 97 ≤ c ∧ c ≤ 102 then some (c - 87)
  else if 65 ≤ c ∧ c ≤ 70 then some (c - 55)
  else none

/-- Modelled from the spec (§4.2): the explicit four-state machine for
`compile_hex_pattern`, with the remembered nibble as extra state. `none` is
compile failure; end of input succeeds exactly when the final state is not
`AfterFirst`. -/
def specRun : PState → Nat → List Cell → List Nat → Option (List Cell)
  | st, _, acc, [] => if st = .afterFirst then none else some acc
  | st, nib, acc, c :: rest =>
    match st with
    | .afterSpace =>
      if isspace c then specRun .afterSpace nib acc rest
      else if c = 63 then specRun .afterWildcard nib (acc ++ [(0, false)]) rest
      else
        match specNibble c with
        | some v => specRun .afterFirst v acc rest
        | none => none
    | .afterFirst =>
      match specNibble c with
      | some v => specRun .afterSecond nib (acc ++ [((nib <<< 4) ||| v, true)]) rest
      | none => none
    | .afterSecond =>
      if isspace c then specRun .afterSpace nib acc rest
      else none
    | .afterWildcard =>
      if isspace c then specRun .afterSpace nib acc rest
      else if c = 63 then specRun .afterWildcard nib acc rest
      else none

/-- Modelled from the spec (§4.2): `compile_hex_pattern(text)` runs the
state machine from `AfterSpace`. -/
def compile_hex_pattern (s : List Nat) : Option Signature := specRun .afterSpace 0 [] s

/-- The `--narrow` loop of siggrep.cpp `parse_args`: each character is cast
to `uint16_t`; values above 0xFF abort the whole parse; otherwise the low
byte becomes one exact cell. -/
def compile_narrow : List Nat → Option Signature
  | [] => some []
  | c :: rest =>
    let ushort := c % 65536
    if 255 < ushort then none
    else (compile_narrow rest).map (fun s => (ushort % 256, true) :: s)

/-- The `--wide` loop of siggrep.cpp `parse_args`: each character yields its
low byte then its high byte, both exact. -/
def compile_wide : List Nat → Signature
  | [] => []
  | c :: rest =>
    let ushort := c % 65536
    (ushort % 256, true) :: ((ushort >>> 8) % 256, true) :: compile_wide rest

/-- The `--widebe` loop of siggrep.cpp `parse_args`: high byte first. -/
def compile_widebe : List Nat → Signature
  | [] => []
  | c :: rest =>
    let ushort := c % 65536
    ((ushort >>> 8) % 256, true) :: (ushort % 256, true) :: compile_widebe rest

/-- `struct Arguments { std::wstring file; std::vector<Signature> sigs; }` -/
structure Arguments where
  file : List Nat
  sigs : List Signature
deriving DecidableEq

/-- The states of `parse_args` (`enum class State`); `typ` is `Type`. -/
inductive AState
  | typ
  | valuePattern
  | valueNarrow
  | valueWide
  | valueWideBE
  | fileOnly
  | done
deriving DecidableEq

/-- The loop of siggrep.cpp `parse_args`, with the accumulated `args.file`
and `args.sigs`; after the loop the parse fails if no signatures were
collected or the state is not `Done`. -/
def parse_args_go : AState → List Nat → List Signature → List (List Nat) → Option Arguments
  | st, f, sigs, [] =>
    if sigs = [] then none
    else if st = .done then some ⟨f, sigs⟩
    else none
  | st, f, sigs, arg :: rest =>
    match st with
    | .typ =>
      if arg = str "--pattern" then parse_args_go .valuePattern f sigs rest
      else if arg = str "--narrow" then parse_args_go .valueNarrow f sigs rest
      else if arg = str "--wide" then parse_args_go .valueWide f sigs rest
      else if arg = str "--widebe" then parse_args_go .valueWideBE f sigs rest
      else if arg = str "--" then parse_args_go .fileOnly f sigs rest
      else parse_args_go .done arg sigs rest
    | .fileOnly => parse_args_go .done arg sigs rest
    | .valuePattern =>
      let sig := parse_sig arg
      if sig = [] then none
      else parse_args_go .typ f (sigs ++ [sig]) rest
    | .valueNarrow =>
      match compile_narrow arg with
      | none => none
      | some sig => parse_args_go .typ f (sigs ++ [sig]) rest
    | .valueWide => parse_args_go .typ f (sigs ++ [compile_wide arg]) rest
    | .valueWideBE => parse_args_go .typ f (sigs ++ [compile_widebe arg]) rest
    | .done => none

/-- siggrep.cpp `parse_args`: iterates from `argv[1]` with empty initial
file and signature list. -/
def parse_args (argv : List (List Nat)) : Option Arguments :=
  parse_args_go .typ [] [] (argv.drop 1)

/-- Whether a token is one of the five recognized option tokens of
`parse_args`'s `Type` state. -/
def is_opt (t : List Nat) : Bool :=
  decide (t = str "--pattern" ∨ t = str "--narrow" ∨ t = str "--wide" ∨
    t = str "--widebe" ∨ t = str "--")

/-- The element predicate passed to `std::search` in siggrep.cpp
`count_sig`: `(!curr_pattern.second) || curr == curr_pattern.first`. -/
def cellOk (pat : Cell) (curr : Nat) : Bool := !pat.2 || (curr == pat.1)

/-- Whether the signature matches a prefix of the byte list, cell by cell
(false when the bytes run out first). -/
def sigMatches : List Cell → List Nat → Bool
  | [], _ => true
  | _ :: _, [] => false
  | pc :: ps, b :: bs => cellOk pc b && sigMatches ps bs

/-- `std::search` over a suffix: the offset of the first position at which
the whole signature matches (`some 0` immediately for an empty signature),
`none` when there is none (the iterator `last`). -/
def searchOff (sig : List Cell) : List Nat → Option Nat
  | [] => if sigMatches sig [] then some 0 else none
  | b :: bs =>
    if sigMatches sig (b :: bs) then some 0
    else (searchOff sig bs).map (· + 1)

/-- The `while (true)` loop of siggrep.cpp `count_sig`: search; return if
the result is `end`; increment the count, advance one past the match start,
return if at `end`, repeat. `fuel` bounds the iteration count; it is called
with the buffer length, which the loop can never exceed because every
round drops at least one byte. -/
def count_loop (sig : List Cell) : Nat → List Nat → Nat → Nat
  | 0, _, count => count
  | fuel + 1, l, count =>
    match searchOff sig l with
    | none => count
    | some o =>
      if o = l.length then count
      else if o + 1 = l.length then count + 1
      else count_loop sig fuel (l.drop (o + 1)) (count + 1)

/-- siggrep.cpp `count_sig` on the whole buffer. -/
def count_sig (buf : List Nat) (sig : List Cell) : Nat :=
  count_loop sig buf.length buf 0

/-- Modelled from the spec (§4.3): position `p` is a match when
`p + len(signature) ≤ len(buffer)` and every cell is a wildcard or equals
the corresponding buffer byte. -/
def matchesAt (buf : List Nat) (sig : Signature) (p : Nat) : Bool :=
  decide (p + sig.length ≤ buf.length) && sigMatches sig (buf.drop p)

/-- Modelled from the spec (§4.3): the number of matching start positions
in the buffer — the overlap-counting semantics. -/
def countMatches (buf : List Nat) (sig : Signature) : Nat :=
  (List.range buf.length).countP (matchesAt buf sig)

/-- What the driver writes to standard error. -/
inductive Out
  | ok
  | usage
  | fileErr (path : List Nat)
deriving DecidableEq

/-- The output loop of siggrep.cpp `wmain`: `"%d,"` between counts, `"%d\n"`
for the last one. -/
def print_counts : List Nat → String
  | [] => ""
  | [c] => toString c ++ "\n"
  | c :: d :: ds => toString c ++ "," ++ print_counts (d :: ds)

/-- Comma-joined strings with no trailing comma. -/
def joinCommas : List String → String
  | [] => ""
  | [x] => x
  | x :: y :: ys => x ++ "," ++ joinCommas (y :: ys)

/-- Modelled from the spec (§6): counts in input order as decimal integers,
comma separated, no trailing comma, newline terminated. -/
def spec_output (counts : List Nat) : String :=
  joinCommas (counts.map toString) ++ "\n"

/-- siggrep.cpp `wmain`, with `read_all` abstracted as an oracle from path
to file content (`none` = the open/read failed): exit 1 and usage on a
parse failure, exit 2 naming the path on a read failure, otherwise exit 0
with the per-signature counts printed in order. -/
def wmain (argv : List (List Nat)) (read_all : List Nat → Option (List Nat)) :
    Nat × String × Out :=
  match parse_args argv with
  | none => (1, "", .usage)
  | some args =>
    match read_all args.file with
    | none => (2, "", .fileErr args.file)
    | some file =>
      (0, print_counts (args.sigs.map (fun s => count_sig file s)), .ok)

/-! ### Lemmas about the matcher -/

lemma sigMatches_length_le : ∀ (sig : List Cell) (l : List Nat),
    sigMatches sig l = true → sig.length ≤ l.length := by
  intro sig
  induction sig with
  | nil => intro l _; simp
  | cons pc ps ih =>
    intro l h
    cases l with
    | nil => simp [sigMatches] at h
    | cons b bs =>
      simp only [sigMatches, Bool.and_eq_true] at h
      simpa using Nat.succ_le_succ (ih bs h.2)

lemma searchOff_some : ∀ (l : List Nat) (sig : List Cell) (o : Nat),
    searchOff sig l = some o →
      o ≤ l.length ∧ sigMatches sig (l.drop o) = true ∧
        ∀ q < o, sigMatches sig (l.drop q) = false := by
  intro l
  induction l with
  | nil =>
    intro sig o h
    simp only [searchOff] at h
    split at h
    · next hm =>
      cases h
      exact ⟨Nat.le_refl 0, by simpa using hm, fun q hq => absurd hq (Nat.not_lt_zero q)⟩
    · cases h
  | cons b bs ih =>
    intro sig o h
    simp only [searchOff] at h
    split at h
    · next hm =>
      cases h
      exact ⟨Nat.zero_le _, by simpa using hm, fun q hq => absurd hq (Nat.not_lt_zero q)⟩
    · next hm =>
      cases hs : searchOff sig bs with
      | none => rw [hs] at h; cases h
      | some o1 =>
        rw [hs] at h
        simp only [Option.map_some'] at h
        cases h
        obtain ⟨h1, h2, h3⟩ := ih sig o1 hs
        refine ⟨by simpa using Nat.succ_le_succ h1, by simpa using h2, ?_⟩
        intro q hq
        cases q with
        | zero => simpa using Bool.not_eq_true _ ▸ (by simpa using hm)
        | succ q1 =>
          rw [List.drop_succ_cons]
          exact h3 q1 (Nat.lt_of_succ_lt_succ hq)

lemma searchOff_none : ∀ (l : List Nat) (sig : List Cell),
    searchOff sig l = none → ∀ q, sigMatches sig (l.drop q) = false := by
  intro l
  induction l with
  | nil =>
    intro sig h q
    simp only [searchOff] at h
    split at h
    · cases h
    · next hm => simpa using Bool.not_eq_true _ ▸ (by simpa using hm)
  | cons b bs ih =>
    intro sig h q
    simp only [searchOff] at h
    split at h
    · cases h
    · next hm =>
      cases hs : searchOff sig bs with
      | some o1 => rw [hs] at h; simp at h
      | none =>
        cases q with
        | zero => simpa using Bool.not_eq_true _ ▸ (by simpa using hm)
        | succ q1 =>
          rw [List.drop_succ_cons]
          exact ih sig hs q1

lemma matchesAt_eq (l : List Nat) (sig : Signature) (p : Nat) (hp : p ≤ l.length) :
    matchesAt l sig p = sigMatches sig (l.drop p) := by
  unfold matchesAt
  cases hm : sigMatches sig (l.drop p) with
  | false => simp
  | true =>
    have hlen := sigMatches_length_le sig (l.drop p) hm
    rw [List.length_drop] at hlen
    simp only [Bool.and_true, decide_eq_true_eq]
    omega

lemma matchesAt_shift (l : List Nat) (sig : Signature) (d q : Nat) (hd : d ≤ l.length) :
    matchesAt l sig (d + q) = matchesAt (l.drop d) sig q := by
  unfold matchesAt
  rw [List.drop_drop, List.length_drop]
  congr 1
  simp only [decide_eq_decide]
  omega

lemma count_loop_spec : ∀ (fuel : Nat) (sig : Signature) (l : List Nat) (count : Nat),
    l.length ≤ fuel →
    count_loop sig fuel l count = count + (List.range l.length).countP (matchesAt l sig) := by
  intro fuel
  induction fuel with
  | zero =>
    intro sig l count hl
    have hnil : l = [] := List.length_eq_zero.mp (Nat.le_zero.mp hl)
    subst hnil
    simp [count_loop]
  | succ fuel ih =>
    intro sig l count hl
    cases hs : searchOff sig l with
    | none =>
      have hnone := searchOff_none l sig hs
      have hz : (List.range l.length).countP (matchesAt l sig) = 0 := by
        rw [List.countP_eq_zero]
        intro p hp
        rw [List.mem_range] at hp
        rw [matchesAt_eq l sig p (Nat.le_of_lt hp), hnone p]
        simp
      simp [count_loop, hs, hz]
    | some o =>
      obtain ⟨ho_le, hmo, hlt⟩ := searchOff_some l sig o hs
      by_cases ho : o = l.length
      · have hz : (List.range l.length).countP (matchesAt l sig) = 0 := by
          rw [List.countP_eq_zero]
          intro p hp
          rw [List.mem_range] at hp
          rw [matchesAt_eq l sig p (Nat.le_of_lt hp), hlt p (ho ▸ hp)]
          simp
        simp [count_loop, hs, ho, hz]
      · have holt : o < l.length := Nat.lt_of_le_of_ne ho_le ho
        have hcount : (List.range l.length).countP (matchesAt l sig)
            = 1 + (List.range (l.drop (o + 1)).length).countP (matchesAt (l.drop (o + 1)) sig) := by
          have hsplit : l.length = (o + 1) + (l.length - (o + 1)) := by omega
          rw [hsplit, List.range_add, List.countP_append, List.range_succ, List.countP_append]
          have c0 : (List.range o).countP (matchesAt l sig) = 0 := by
            rw [List.countP_eq_zero]
            intro p hp
            rw [List.mem_range] at hp
            rw [matchesAt_eq l sig p (by omega), hlt p hp]
            simp
          have c1 : List.countP (matchesAt l sig) [o] = 1 := by
            simp [List.countP_cons, matchesAt_eq l sig o (Nat.le_of_lt holt), hmo]
          have c2 : (List.map (fun x => (o + 1) + x) (List.range (l.length - (o + 1)))).countP
                (matchesAt l sig)
              = (List.range (l.drop (o + 1)).length).countP (matchesAt (l.drop (o + 1)) sig) := by
            rw [List.countP_map, List.length_drop]
            apply List.countP_congr
            intro q _
            have hsh := matchesAt_shift l sig (o + 1) q (by omega)
            show matchesAt l sig ((o + 1) + q) = true ↔ matchesAt (l.drop (o + 1)) sig q = true
            rw [hsh]
          rw [c0, c1, c2]
        by_cases h1 : o + 1 = l.length
        · have hdrop : l.drop (o + 1) = [] := by
            rw [h1]; simp
          rw [hcount, hdrop]
          simp [count_loop, hs, ho, h1]
        · have hrec := ih sig (l.drop (o + 1)) (count + 1)
            (by rw [List.length_drop]; omega)
          have : count_loop sig (fuel + 1) l count
              = count_loop sig fuel (l.drop (o + 1)) (count + 1) := by
            simp [count_loop, hs, ho, h1]
          rw [this, hrec, hcount]
          omega

lemma count_sig_eq_countMatches (buf : List Nat) (sig : Signature) :
    count_sig buf sig = countMatches buf sig := by
  unfold count_sig countMatches
  rw [count_loop_spec buf.length sig buf 0 (Nat.le_refl _)]
  omega

lemma cellOk_iff (c : Cell) (b : Nat) :
    cellOk c b = true ↔ (c.2 = false ∨ b = c.1) := by
  cases c with
  | mk byte ex => cases ex <;> simp [cellOk]

lemma sigMatches_iff : ∀ (sig : List Cell) (bs : List Nat),
    sigMatches sig bs = true ↔
      (sig.length ≤ bs.length ∧
        ∀ i, i < sig.length → cellOk (sig.getD i (0, true)) (bs.getD i 0) = true) := by
  intro sig
  induction sig with
  | nil => intro bs; simp [sigMatches]
  | cons pc ps ih =>
    intro bs
    cases bs with
    | nil => simp [sigMatches]
    | cons b bs2 =>
      simp only [sigMatches, Bool.and_eq_true, ih bs2, List.length_cons]
      constructor
      · rintro ⟨h0, hle, hall⟩
        refine ⟨Nat.succ_le_succ hle, ?_⟩
        intro i hi
        cases i with
        | zero => simpa using h0
        | succ j => simpa using hall j (Nat.lt_of_succ_lt_succ hi)
      · rintro ⟨hle, hall⟩
        refine ⟨by simpa using hall 0 (Nat.succ_pos _), Nat.le_of_succ_le_succ hle, ?_⟩
        intro j hj
        simpa using hall (j + 1) (Nat.succ_lt_succ hj)

lemma getD_drop (l : List Nat) (p i : Nat) : (l.drop p).getD i 0 = l.getD (p + i) 0 := by
  simp [List.getD_eq_getElem?_getD, List.getElem?_drop]

lemma matchesAt_iff (buf : List Nat) (sig : Signature) (p : Nat) :
    matchesAt buf sig p = true ↔
      (p + sig.length ≤ buf.length ∧
        ∀ i, i < sig.length →
          ((sig.getD i (0, true)).2 = false ∨
            buf.getD (p + i) 0 = (sig.getD i (0, true)).1)) := by
  unfold matchesAt
  rw [Bool.and_eq_true, decide_eq_true_eq, sigMatches_iff]
  constructor
  · rintro ⟨hlen, _, hall⟩
    refine ⟨hlen, ?_⟩
    intro i hi
    have hcell := (cellOk_iff _ _).mp (hall i hi)
    rwa [getD_drop] at hcell
  · rintro ⟨hlen, hall⟩
    refine ⟨hlen, by rw [List.length_drop]; omega, ?_⟩
    intro i hi
    rw [cellOk_iff, getD_drop]
    exact hall i hi

/-! ### Claims about the matcher (C1, C6, C10) -/

/-- C1: for every byte buffer and every non-empty compiled signature,
`count_sig` counts every matching start position — on each match at `p` it
increments the count and resumes at `p + 1`, so overlapping matches are all
counted: the result equals the number of positions `p` with
`p + len(sig) ≤ len(buf)` at which every cell is a wildcard or equals the
corresponding buffer byte. (The two-cell exact signature 41 41 over the
buffer 41 41 41 41 yields 3; see the witness.) -/
theorem count_sig_counts_all_overlapping_matches (buf : List Nat) (sig : Signature)
    (hne : sig ≠ []) :
    count_sig buf sig = countMatches buf sig ∧
      ∀ p, matchesAt buf sig p = true ↔
        (p + sig.length ≤ buf.length ∧
          ∀ i, i < sig.length →
            ((sig.getD i (0, true)).2 = false ∨
              buf.getD (p + i) 0 = (sig.getD i (0, true)).1)) :=
  ⟨count_sig_eq_countMatches buf sig, fun p => matchesAt_iff buf sig p⟩

/-- C1 witness: the signature 41 41 over buffer 41 41 41 41 counts 3
(positions 0, 1, 2 — overlapping). -/
theorem count_sig_counts_all_overlapping_matches_witness :
    count_sig [65, 65, 65, 65] [(65, true), (65, true)]
        = countMatches [65, 65, 65, 65] [(65, true), (65, true)] ∧
      countMatches [65, 65, 65, 65] [(65, true), (65, true)] = 3 :=
  ⟨(count_sig_counts_all_overlapping_matches [65, 65, 65, 65] [(65, true), (65, true)]
      (by decide)).1,
   by decide⟩

/-- C6: a signature longer than the buffer counts 0. -/
theorem count_sig_zero_of_longer_sig (buf : List Nat) (sig : Signature)
    (h : buf.length < sig.length) : count_sig buf sig = 0 := by
  rw [count_sig_eq_countMatches]
  unfold countMatches
  rw [List.countP_eq_zero]
  intro p hp
  rw [List.mem_range] at hp
  simp only [matchesAt, Bool.and_eq_true, decide_eq_true_eq]
  rintro ⟨hlen, -⟩
  omega

/-- C6 witness: a one-cell signature over the empty buffer counts 0. -/
theorem count_sig_zero_of_longer_sig_witness : count_sig [] [(0, true)] = 0 :=
  count_sig_zero_of_longer_sig [] [(0, true)] (by decide)

/-- C10: counting an empty (length-0) signature over any buffer returns
exactly the buffer length (the empty pattern matches at every position and
the scan stops when the resume position reaches the end) — and such an
empty signature is reachable from the command line via `--narrow` with an
empty string argument. -/
theorem count_sig_empty_sig_eq_length :
    (∀ buf : List Nat, count_sig buf [] = buf.length) ∧
      (parse_args [str "siggrep", str "--narrow", [], str "g"]).map Arguments.sigs
        = some [[]] := by
  constructor
  · intro buf
    rw [count_sig_eq_countMatches]
    unfold countMatches
    have hall : ∀ p ∈ List.range buf.length, matchesAt buf [] p = true := by
      intro p hp
      rw [List.mem_range] at hp
      simp only [matchesAt, sigMatches, Bool.and_true, decide_eq_true_eq, List.length_nil]
      omega
    rw [List.countP_eq_length.mpr hall, List.length_range]
  · decide

/-! ### Wildcard bytes are never read (C9) -/

lemma sigMatches_set_wildcard : ∀ (sig : List Cell) (i : Nat) (b b' : Nat) (l : List Nat),
    sig[i]? = some (b, false) →
    sigMatches (sig.set i (b', false)) l = sigMatches sig l := by
  intro sig
  induction sig with
  | nil => intro i b b' l h; simp at h
  | cons pc ps ih =>
    intro i b b' l h
    cases i with
    | zero =>
      simp only [List.getElem?_cons_zero, Option.some_inj] at h
      subst h
      cases l with
      | nil => simp [sigMatches]
      | cons x xs => simp [sigMatches, cellOk]
    | succ j =>
      simp only [List.getElem?_cons_succ] at h
      cases l with
      | nil => simp [sigMatches]
      | cons x xs =>
        simp only [List.set_cons_succ, sigMatches]
        rw [ih j b b' xs h]

lemma countMatches_set_wildcard (buf : List Nat) (sig : Signature) (i : Nat) (b b' : Nat)
    (h : sig[i]? = some (b, false)) :
    countMatches buf (sig.set i (b', false)) = countMatches buf sig := by
  unfold countMatches
  apply List.countP_congr
  intro p _
  unfold matchesAt
  rw [sigMatches_set_wildcard sig i b b' _ h, List.length_set]

lemma parse_sig_go_wildcard_zero : ∀ (s : List Nat) (st : PState) (nib : Nat) (acc : List Cell),
    (∀ c ∈ acc, c.2 = false → c.1 = 0) →
    ∀ c ∈ parse_sig_go st nib acc s, c.2 = false → c.1 = 0 := by
  intro s
  induction s with
  | nil =>
    intro st nib acc hacc c hc
    simp only [parse_sig_go] at hc
    split at hc
    · simp at hc
    · exact hacc c hc
  | cons x rest ih =>
    intro st nib acc hacc c hc
    by_cases hx : x = 0
    · simp only [parse_sig_go, if_pos hx] at hc
      split at hc
      · simp at hc
      · exact hacc c hc
    · cases st with
      | afterSpace =>
        simp only [parse_sig_go, if_neg hx] at hc
        split at hc
        · exact ih _ _ _ hacc c hc
        · split at hc
          · refine ih _ _ _ ?_ c hc
            intro d hd hdf
            rcases List.mem_append.mp hd with h1 | h1
            · exact hacc d h1 hdf
            · simp only [List.mem_singleton] at h1
              rw [h1]
          · split at hc
            · exact ih _ _ _ hacc c hc
            · simp at hc
      | afterFirst =>
        simp only [parse_sig_go, if_neg hx] at hc
        split at hc
        · refine ih _ _ _ ?_ c hc
          intro d hd hdf
          rcases List.mem_append.mp hd with h1 | h1
          · exact hacc d h1 hdf
          · simp only [List.mem_singleton] at h1
            rw [h1] at hdf
            simp at hdf
        · simp at hc
      | afterSecond =>
        simp only [parse_sig_go, if_neg hx] at hc
        split at hc
        · exact ih _ _ _ hacc c hc
        · simp at hc
      | afterWildcard =>
        simp only [parse_sig_go, if_neg hx] at hc
        split at hc
        · exact ih _ _ _ hacc c hc
        · split at hc
          · exact ih _ _ _ hacc c hc
          · simp at hc

/-- C9: the byte field of a wildcard cell is never compared during
matching — replacing the byte stored in any `exact = false` cell by an
arbitrary other byte leaves every count unchanged — and the hex-pattern
compiler always stores 0 in wildcard cells. -/
theorem wildcard_byte_never_compared :
    (∀ (buf : List Nat) (sig : Signature) (i b b' : Nat),
        sig[i]? = some (b, false) →
        count_sig buf (sig.set i (b', false)) = count_sig buf sig) ∧
      (∀ (s : List Nat) (c : Cell), c ∈ parse_sig s → c.2 = false → c.1 = 0) := by
  constructor
  · intro buf sig i b b' h
    rw [count_sig_eq_countMatches, count_sig_eq_countMatches]
    exact countMatches_set_wildcard buf sig i b b' h
  · intro s c hc
    exact parse_sig_go_wildcard_zero s .afterSpace 0 [] (by simp) c hc

/-- C9 witness: rewriting the wildcard byte of `41 ?` from 0 to 200 leaves
the count over a concrete buffer unchanged. -/
theorem wildcard_byte_never_compared_witness :
    count_sig [65, 7, 65] ([(65, true), (0, false)].set 1 (200, false))
      = count_sig [65, 7, 65] [(65, true), (0, false)] :=
  wildcard_byte_never_compared.1 [65, 7, 65] [(65, true), (0, false)] 1 0 200 (by decide)

/-! ### The hex-pattern compiler matches the spec's state machine (C2) -/

lemma specNibble_val (c v : Nat) (h : specNibble c = some v) : unhex c = v ∧ v < 16 := by
  unfold specNibble at h
  unfold unhex
  split_ifs at h with h1 h2 h3
  · injection h with hv
    refine ⟨?_, by omega⟩
    split_ifs <;> omega
  · injection h with hv
    refine ⟨?_, by omega⟩
    split_ifs <;> omega
  · injection h with hv
    refine ⟨?_, by omega⟩
    split_ifs <;> omega

lemma specNibble_none (c : Nat) (h : specNibble c = none) : unhex c = 0xFF := by
  unfold specNibble at h
  unfold unhex
  split_ifs at h with h1 h2 h3
  split_ifs <;> omega

lemma parse_sig_go_eq_specRun : ∀ (s : List Nat) (st : PState) (nib nib' : Nat)
    (acc : List Cell),
    (st = .afterFirst → nib = nib') → (∀ c ∈ s, c ≠ 0) →
    parse_sig_go st nib acc s = (specRun st nib' acc s).getD [] := by
  intro s
  induction s with
  | nil =>
    intro st nib nib' acc _ _
    by_cases h : st = .afterFirst <;> simp [parse_sig_go, specRun, h]
  | cons c0 rest ih =>
    intro st nib nib' acc hn hz
    have hz0 : c0 ≠ 0 := hz c0 (by simp)
    have hzr : ∀ c ∈ rest, c ≠ 0 := fun c hc => hz c (List.mem_cons_of_mem _ hc)
    cases st with
    | afterSpace =>
      by_cases hs : isspace c0 = true
      · simp only [parse_sig_go, specRun, if_neg hz0, if_pos hs]
        exact ih .afterSpace _ nib' acc (fun h => absurd h (by decide)) hzr
      · by_cases hq : c0 = 63
        · simp only [parse_sig_go, specRun, if_neg hz0, if_neg hs, if_pos hq]
          exact ih .afterWildcard _ nib' _ (fun h => absurd h (by decide)) hzr
        · cases hnib : specNibble c0 with
          | some v =>
            obtain ⟨hu, hv⟩ := specNibble_val c0 v hnib
            simp only [parse_sig_go, specRun, if_neg hz0, if_neg hs, if_neg hq, hnib]
            rw [if_pos (show unhex c0 ≠ 0xFF by omega)]
            exact ih .afterFirst (unhex c0) v acc (fun _ => hu) hzr
          | none =>
            have hu := specNibble_none c0 hnib
            simp only [parse_sig_go, specRun, if_neg hz0, if_neg hs, if_neg hq, hnib]
            rw [if_neg (show ¬unhex c0 ≠ 0xFF by omega)]
            simp
    | afterFirst =>
      have hnn : nib = nib' := hn rfl
      subst hnn
      cases hnib : specNibble c0 with
      | some v =>
        obtain ⟨hu, hv⟩ := specNibble_val c0 v hnib
        simp only [parse_sig_go, specRun, if_neg hz0, hnib]
        rw [if_pos (show unhex c0 ≠ 0xFF by omega), hu]
        exact ih .afterSecond nib nib _ (fun h => absurd h (by decide)) hzr
      | none =>
        have hu := specNibble_none c0 hnib
        simp only [parse_sig_go, specRun, if_neg hz0, hnib]
        rw [if_neg (show ¬unhex c0 ≠ 0xFF by omega)]
        simp
    | afterSecond =>
      by_cases hs : isspace c0 = true
      · simp only [parse_sig_go, specRun, if_neg hz0, if_pos hs]
        exact ih .afterSpace nib nib' acc (fun h => absurd h (by decide)) hzr
      · simp only [parse_sig_go, specRun, if_neg hz0, if_neg hs]
        simp
    | afterWildcard =>
      by_cases hs : isspace c0 = true
      · simp only [parse_sig_go, specRun, if_neg hz0, if_pos hs]
        exact ih .afterSpace nib nib' acc (fun h => absurd h (by decide)) hzr
      · by_cases hq : c0 = 63
        · simp only [parse_sig_go, specRun, if_neg hz0, if_neg hs, if_pos hq]
          exact ih .afterWildcard nib nib' acc (fun h => absurd h (by decide)) hzr
        · simp only [parse_sig_go, specRun, if_neg hz0, if_neg hs, if_neg hq]
          simp

/-- C2: on every NUL-free input string, `parse_sig` behaves exactly as the
spec's four-state machine `AfterSpace` / `AfterFirst` / `AfterSecond` /
`AfterWildcard` (`specRun`, with whitespace keeping `AfterSpace`, a run of
`?` in one token emitting exactly one wildcard cell, end of input
succeeding iff the final state is not `AfterFirst`): `parse_sig` returns
the machine's emitted cell sequence on acceptance and the empty (failure)
signature on rejection. -/
theorem parse_sig_eq_spec_machine (s : List Nat) (hz : ∀ c ∈ s, c ≠ 0) :
    parse_sig s = (compile_hex_pattern s).getD [] :=
  parse_sig_go_eq_specRun s .afterSpace 0 0 [] (fun h => absurd h (by decide)) hz

/-- C2 witness: the spec's own example pattern 12 34 ? 78. -/
theorem parse_sig_eq_spec_machine_witness :
    parse_sig (str "12 34 ? 78") = (compile_hex_pattern (str "12 34 ? 78")).getD [] ∧
      parse_sig (str "12 34 ? 78") = [(0x12, true), (0x34, true), (0, false), (0x78, true)] :=
  ⟨parse_sig_eq_spec_machine (str "12 34 ? 78") (by decide), by decide⟩

/-! ### Literal-string compilation (C4) -/

lemma compile_narrow_none_iff : ∀ s : List Nat,
    compile_narrow s = none ↔ ∃ c ∈ s, 255 < c % 65536 := by
  intro s
  induction s with
  | nil => simp [compile_narrow]
  | cons c rest ih =>
    simp only [compile_narrow]
    by_cases h : 255 < c % 65536
    · rw [if_pos h]
      constructor
      · intro _
        exact ⟨c, by simp, h⟩
      · intro _
        rfl
    · rw [if_neg h, Option.map_eq_none', ih]
      constructor
      · rintro ⟨x, hx, hp⟩
        exact ⟨x, List.mem_cons_of_mem _ hx, hp⟩
      · rintro ⟨x, hx, hp⟩
        rcases List.mem_cons.mp hx with rfl | hx2
        · exact absurd hp h
        · exact ⟨x, hx2, hp⟩

lemma compile_narrow_some : ∀ (s : List Nat) (sig : Signature),
    compile_narrow s = some sig → sig = s.map (fun c => (c % 256, true)) := by
  intro s
  induction s with
  | nil =>
    intro sig h
    simp only [compile_narrow, Option.some_inj] at h
    simp [← h]
  | cons c rest ih =>
    intro sig h
    simp only [compile_narrow] at h
    split at h
    · exact Option.noConfusion h
    · rw [Option.map_eq_some'] at h
      obtain ⟨s2, hs2, hcons⟩ := h
      rw [ih s2 hs2] at hcons
      rw [← hcons, List.map_cons]
      have : c % 65536 % 256 = c % 256 := by omega
      rw [this]

lemma compile_wide_eq : ∀ s : List Nat,
    compile_wide s = s.flatMap (fun c => [(c % 256, true), (c / 256 % 256, true)]) := by
  intro s
  induction s with
  | nil => simp [compile_wide]
  | cons c rest ih =>
    simp only [compile_wide, List.flatMap_cons, ih]
    have h1 : c % 65536 % 256 = c % 256 := by omega
    have h2 : (c % 65536) >>> 8 % 256 = c / 256 % 256 := by
      rw [Nat.shiftRight_eq_div_pow]
      omega
    rw [h1, h2]
    simp

lemma compile_widebe_eq : ∀ s : List Nat,
    compile_widebe s = s.flatMap (fun c => [(c / 256 % 256, true), (c % 256, true)]) := by
  intro s
  induction s with
  | nil => simp [compile_widebe]
  | cons c rest ih =>
    simp only [compile_widebe, List.flatMap_cons, ih]
    have h1 : c % 65536 % 256 = c % 256 := by omega
    have h2 : (c % 65536) >>> 8 % 256 = c / 256 % 256 := by
      rw [Nat.shiftRight_eq_div_pow]
      omega
    rw [h1, h2]
    simp

/-- C4: `--narrow` turns each character into one exact cell holding its low
byte and fails exactly when some character's 16-bit code unit exceeds 255;
`--wide` yields two exact cells per character, low byte then high byte;
`--widebe` yields high byte then low byte; none of the three literal modes
ever produces a wildcard cell. -/
theorem compile_literal_cells :
    (∀ s : List Nat, compile_narrow s = none ↔ ∃ c ∈ s, 255 < c % 65536) ∧
      (∀ (s : List Nat) (sig : Signature), compile_narrow s = some sig →
        sig = s.map (fun c => (c % 256, true))) ∧
      (∀ s : List Nat,
        compile_wide s = s.flatMap (fun c => [(c % 256, true), (c / 256 % 256, true)])) ∧
      (∀ s : List Nat,
        compile_widebe s = s.flatMap (fun c => [(c / 256 % 256, true), (c % 256, true)])) ∧
      (∀ (s : List Nat) (cell : Cell),
        (∀ sig, compile_narrow s = some sig → cell ∈ sig → cell.2 = true) ∧
          (cell ∈ compile_wide s → cell.2 = true) ∧
          (cell ∈ compile_widebe s → cell.2 = true)) := by
  refine ⟨compile_narrow_none_iff, compile_narrow_some, compile_wide_eq, compile_widebe_eq, ?_⟩
  intro s cell
  refine ⟨?_, ?_, ?_⟩
  · intro sig hsig hmem
    rw [compile_narrow_some s sig hsig] at hmem
    rw [List.mem_map] at hmem
    obtain ⟨c, -, hc⟩ := hmem
    rw [← hc]
  · intro hmem
    rw [compile_wide_eq, List.mem_flatMap] at hmem
    obtain ⟨c, -, hc⟩ := hmem
    simp only [List.mem_cons, List.mem_singleton, List.not_mem_nil, or_false] at hc
    rcases hc with h | h <;> rw [h]
  · intro hmem
    rw [compile_widebe_eq, List.mem_flatMap] at hmem
    obtain ⟨c, -, hc⟩ := hmem
    simp only [List.mem_cons, List.mem_singleton, List.not_mem_nil, or_false] at hc
    rcases hc with h | h <;> rw [h]

/-- C4 witness: `--narrow "AB"` compiles to the two exact cells 41 42. -/
theorem compile_literal_cells_witness :
    ([(65, true), (66, true)] : Signature)
      = [65, 66].map (fun c => (c % 256, true)) :=
  compile_literal_cells.2.1 [65, 66] [(65, true), (66, true)] (by decide)

/-! ### Empty signatures (C3) -/

/-- C3 counterexample: `--narrow` with an empty string argument successfully
places an empty (length-0) signature into the signature set — refuting the
invariant that every signature in the set has length ≥ 1 and that a compile
failure is the only way to produce "no signature". -/
theorem empty_signature_constructible :
    (parse_args [str "siggrep", str "--narrow", [], str "f"]).map Arguments.sigs
      = some [[]] := by decide

/-- C3 amended: `--pattern` never adds an empty signature (a hex pattern
compiling to the empty signature aborts the whole parse), but each of the
three literal modes (`--narrow`, `--wide`, `--widebe`) successfully
constructs an empty signature exactly when its string argument is empty. -/
theorem pattern_signatures_nonempty :
    (∀ (a0 arg : List Nat) (rest : List (List Nat)), parse_sig arg = [] →
        parse_args (a0 :: str "--pattern" :: arg :: rest) = none) ∧
      (∀ s : List Nat, compile_narrow s = some [] ↔ s = []) ∧
      (∀ s : List Nat, compile_wide s = [] ↔ s = []) ∧
      (∀ s : List Nat, compile_widebe s = [] ↔ s = []) := by
  refine ⟨?_, ?_, ?_, ?_⟩
  · intro a0 arg rest h
    simp [parse_args, parse_args_go, h]
  · intro s
    cases s with
    | nil => simp [compile_narrow]
    | cons c rest =>
      simp only [compile_narrow]
      split
      · simp
      · simp [Option.map_eq_some']
  · intro s
    cases s with
    | nil => simp [compile_wide]
    | cons c rest => simp [compile_wide]
  · intro s
    cases s with
    | nil => simp [compile_widebe]
    | cons c rest => simp [compile_widebe]

/-- C3 amended witness: an empty `--pattern` argument makes the whole
command line fail to parse. -/
theorem pattern_signatures_nonempty_witness :
    parse_args [str "siggrep", str "--pattern", [], str "f"] = none :=
  pattern_signatures_nonempty.1 (str "siggrep") [] [str "f"] (by decide)

/-! ### Hex-pattern compile failures are hard errors (C5) -/

lemma parse_sig_go_bad_char : ∀ (s : List Nat) (st : PState) (nib : Nat) (acc : List Cell)
    (c : Nat), (∀ x ∈ s, x ≠ 0) → c ∈ s → isspace c = false → c ≠ 63 → unhex c = 0xFF →
    parse_sig_go st nib acc s = [] := by
  intro s
  induction s with
  | nil =>
    intro st nib acc c _ hc _ _ _
    simp at hc
  | cons x rest ih =>
    intro st nib acc c hz hc hsp hq hu
    have hx : x ≠ 0 := hz x (by simp)
    have hzr : ∀ y ∈ rest, y ≠ 0 := fun y hy => hz y (List.mem_cons_of_mem _ hy)
    rcases List.mem_cons.mp hc with rfl | hcr
    · cases st with
      | afterSpace =>
        simp [parse_sig_go, hx, hsp, hq, hu]
      | afterFirst =>
        simp [parse_sig_go, hx, hu]
      | afterSecond =>
        simp [parse_sig_go, hx, hsp]
      | afterWildcard =>
        simp [parse_sig_go, hx, hsp, hq]
    · cases st with
      | afterSpace =>
        simp only [parse_sig_go, if_neg hx]
        split
        · exact ih _ _ _ c hzr hcr hsp hq hu
        · split
          · exact ih _ _ _ c hzr hcr hsp hq hu
          · split
            · exact ih _ _ _ c hzr hcr hsp hq hu
            · rfl
      | afterFirst =>
        simp only [parse_sig_go, if_neg hx]
        split
        · exact ih _ _ _ c hzr hcr hsp hq hu
        · rfl
      | afterSecond =>
        simp only [parse_sig_go, if_neg hx]
        split
        · exact ih _ _ _ c hzr hcr hsp hq hu
        · rfl
      | afterWildcard =>
        simp only [parse_sig_go, if_neg hx]
        split
        · exact ih _ _ _ c hzr hcr hsp hq hu
        · split
          · exact ih _ _ _ c hzr hcr hsp hq hu
          · rfl

/-- C5: the hex-pattern compiler fails — returning the empty signature,
which the caller rejects as a hard error — on the inputs "1" (dangling
nibble), "" (empty) and "zz"; any unrecognized character (not whitespace,
not `?`, not a hex digit) anywhere in a NUL-free input forces failure; and
a `--pattern` whose value compiles to the empty signature makes the whole
run exit 1 with usage text rather than act as a match-nothing signature. -/
theorem compile_hex_pattern_hard_failures :
    parse_sig (str "1") = [] ∧ parse_sig (str "") = [] ∧ parse_sig (str "zz") = [] ∧
      (∀ (a0 p : List Nat) (rest : List (List Nat)) (r : List Nat → Option (List Nat)),
        parse_sig p = [] →
        wmain (a0 :: str "--pattern" :: p :: rest) r = (1, "", Out.usage)) ∧
      (∀ (s : List Nat) (c : Nat), (∀ x ∈ s, x ≠ 0) → c ∈ s → isspace c = false →
        c ≠ 63 → unhex c = 0xFF → parse_sig s = []) := by
  refine ⟨by decide, by decide, by decide, ?_, ?_⟩
  · intro a0 p rest r h
    have hpa : parse_args (a0 :: str "--pattern" :: p :: rest) = none := by
      simp [parse_args, parse_args_go, h]
    simp [wmain, hpa]
  · intro s c hz hc hsp hq hu
    exact parse_sig_go_bad_char s .afterSpace 0 [] c hz hc hsp hq hu

/-- C5 witness: `--pattern zz` exits 1 with usage output. -/
theorem compile_hex_pattern_hard_failures_witness :
    wmain [str "siggrep", str "--pattern", str "zz", str "f"] (fun p => some [])
      = (1, "", Out.usage) :=
  compile_hex_pattern_hard_failures.2.2.2.1 (str "siggrep") (str "zz") [str "f"]
    (fun p => some []) (by decide)

/-! ### Argument parsing (C7) and output format (C8) -/

lemma parse_args_go_nil_some {st : AState} {f : List Nat} {sigs : List Signature}
    {a : Arguments} (h : parse_args_go st f sigs [] = some a) :
    st = .done ∧ a = ⟨f, sigs⟩ ∧ sigs ≠ [] := by
  simp only [parse_args_go] at h
  split at h
  · exact Option.noConfusion h
  · next hs =>
    split at h
    · next hd =>
      injection h with h2
      exact ⟨hd, h2.symm, hs⟩
    · exact Option.noConfusion h

lemma parse_args_go_sigs_ne_nil : ∀ (argv : List (List Nat)) (st : AState) (f : List Nat)
    (sigs : List Signature) (a : Arguments),
    parse_args_go st f sigs argv = some a → a.sigs ≠ [] := by
  intro argv
  induction argv with
  | nil =>
    intro st f sigs a h
    obtain ⟨-, rfl, hs⟩ := parse_args_go_nil_some h
    exact hs
  | cons arg rest ih =>
    intro st f sigs a h
    cases st with
    | typ =>
      simp only [parse_args_go] at h
      split at h
      · exact ih _ _ _ _ h
      · split at h
        · exact ih _ _ _ _ h
        · split at h
          · exact ih _ _ _ _ h
          · split at h
            · exact ih _ _ _ _ h
            · split at h
              · exact ih _ _ _ _ h
              · exact ih _ _ _ _ h
    | fileOnly =>
      simp only [parse_args_go] at h
      exact ih _ _ _ _ h
    | valuePattern =>
      simp only [parse_args_go] at h
      split at h
      · exact Option.noConfusion h
      · exact ih _ _ _ _ h
    | valueNarrow =>
      simp only [parse_args_go] at h
      split at h
      · exact Option.noConfusion h
      · exact ih _ _ _ _ h
    | valueWide =>
      simp only [parse_args_go] at h
      exact ih _ _ _ _ h
    | valueWideBE =>
      simp only [parse_args_go] at h
      exact ih _ _ _ _ h
    | done =>
      simp only [parse_args_go] at h
      exact Option.noConfusion h

lemma parse_args_go_success_shape : ∀ (argv : List (List Nat)) (st : AState) (f : List Nat)
    (sigs : List Signature) (a : Arguments),
    parse_args_go st f sigs argv = some a →
    (argv = [] ∧ st = .done ∧ a = ⟨f, sigs⟩) ∨ ∃ pre, argv = pre ++ [a.file] := by
  intro argv
  induction argv with
  | nil =>
    intro st f sigs a h
    obtain ⟨hst, ha, -⟩ := parse_args_go_nil_some h
    exact Or.inl ⟨rfl, hst, ha⟩
  | cons arg rest ih =>
    intro st f sigs a h
    cases st with
    | typ =>
      simp only [parse_args_go] at h
      split at h
      · rcases ih _ _ _ _ h with ⟨-, hst, -⟩ | ⟨pre, hpre⟩
        · exact absurd hst (by decide)
        · exact Or.inr ⟨arg :: pre, by rw [hpre]; rfl⟩
      · split at h
        · rcases ih _ _ _ _ h with ⟨-, hst, -⟩ | ⟨pre, hpre⟩
          · exact absurd hst (by decide)
          · exact Or.inr ⟨arg :: pre, by rw [hpre]; rfl⟩
        · split at h
          · rcases ih _ _ _ _ h with ⟨-, hst, -⟩ | ⟨pre, hpre⟩
            · exact absurd hst (by decide)
            · exact Or.inr ⟨arg :: pre, by rw [hpre]; rfl⟩
          · split at h
            · rcases ih _ _ _ _ h with ⟨-, hst, -⟩ | ⟨pre, hpre⟩
              · exact absurd hst (by decide)
              · exact Or.inr ⟨arg :: pre, by rw [hpre]; rfl⟩
            · split at h
              · rcases ih _ _ _ _ h with ⟨-, hst, -⟩ | ⟨pre, hpre⟩
                · exact absurd hst (by decide)
                · exact Or.inr ⟨arg :: pre, by rw [hpre]; rfl⟩
              · rcases ih _ _ _ _ h with ⟨hrest, -, ha⟩ | ⟨pre, hpre⟩
                · subst hrest
                  exact Or.inr ⟨[], by rw [ha]; rfl⟩
                · exact Or.inr ⟨arg :: pre, by rw [hpre]; rfl⟩
    | fileOnly =>
      simp only [parse_args_go] at h
      rcases ih _ _ _ _ h with ⟨hrest, -, ha⟩ | ⟨pre, hpre⟩
      · subst hrest
        exact Or.inr ⟨[], by rw [ha]; rfl⟩
      · exact Or.inr ⟨arg :: pre, by rw [hpre]; rfl⟩
    | valuePattern =>
      simp only [parse_args_go] at h
      split at h
      · exact Option.noConfusion h
      · rcases ih _ _ _ _ h with ⟨-, hst, -⟩ | ⟨pre, hpre⟩
        · exact absurd hst (by decide)
        · exact Or.inr ⟨arg :: pre, by rw [hpre]; rfl⟩
    | valueNarrow =>
      simp only [parse_args_go] at h
      split at h
      · exact Option.noConfusion h
      · rcases ih _ _ _ _ h with ⟨-, hst, -⟩ | ⟨pre, hpre⟩
        · exact absurd hst (by decide)
        · exact Or.inr ⟨arg :: pre, by rw [hpre]; rfl⟩
    | valueWide =>
      simp only [parse_args_go] at h
      rcases ih _ _ _ _ h with ⟨-, hst, -⟩ | ⟨pre, hpre⟩
      · exact absurd hst (by decide)
      · exact Or.inr ⟨arg :: pre, by rw [hpre]; rfl⟩
    | valueWideBE =>
      simp only [parse_args_go] at h
      rcases ih _ _ _ _ h with ⟨-, hst, -⟩ | ⟨pre, hpre⟩
      · exact absurd hst (by decide)
      · exact Or.inr ⟨arg :: pre, by rw [hpre]; rfl⟩
    | done =>
      simp only [parse_args_go] at h
      exact Option.noConfusion h

lemma parse_args_file_last (argv : List (List Nat)) (a : Arguments)
    (h : parse_args argv = some a) : (argv.drop 1).getLast? = some a.file := by
  unfold parse_args at h
  rcases parse_args_go_success_shape _ _ _ _ _ h with ⟨-, hst, -⟩ | ⟨pre, hpre⟩
  · exact absurd hst (by decide)
  · rw [hpre, List.getLast?_concat]

/-- C7 amended: a flag missing its value, zero supplied signatures, or a
missing file argument remains a usage error (on any parse failure the
program exits 1 with usage text on stderr and empty stdout; a successful
parse always has at least one signature and always took the final argument
as the file). But an unrecognized flag is not itself a usage error: a token
in flag position that is not one of the five recognized option tokens is
consumed as the file path, so it causes a parse failure only when further
arguments follow it. -/
theorem usage_error_conditions :
    (∀ (argv : List (List Nat)) (a : Arguments), parse_args argv = some a → a.sigs ≠ []) ∧
      (∀ (argv : List (List Nat)) (a : Arguments), parse_args argv = some a →
        (argv.drop 1).getLast? = some a.file) ∧
      (∀ (argv : List (List Nat)) (r : List Nat → Option (List Nat)),
        parse_args argv = none → wmain argv r = (1, "", Out.usage)) ∧
      (∀ (a0 tok : List Nat) (rest : List (List Nat)), is_opt tok = false → rest ≠ [] →
        parse_args (a0 :: tok :: rest) = none) := by
  refine ⟨?_, ?_, ?_, ?_⟩
  · intro argv a h
    exact parse_args_go_sigs_ne_nil _ _ _ _ _ h
  · intro argv a h
    exact parse_args_file_last argv a h
  · intro argv r h
    simp [wmain, h]
  · intro a0 tok rest ho hne
    simp only [is_opt, decide_eq_false_iff_not] at ho
    push_neg at ho
    obtain ⟨h1, h2, h3, h4, h5⟩ := ho
    cases rest with
    | nil => exact absurd rfl hne
    | cons r rs =>
      simp [parse_args, parse_args_go, h1, h2, h3, h4, h5]

/-- C7 amended witness: a lone unrecognized token followed by a file
argument fails the parse (here because no signature was supplied and the
token was consumed as the file). -/
theorem usage_error_conditions_witness :
    parse_args [str "siggrep", str "--bogus", str "f"] = none :=
  usage_error_conditions.2.2.2 (str "siggrep") (str "--bogus") [str "f"]
    (by decide) (by decide)

/-- C7 counterexample: the invocation `siggrep --pattern 41 --unknown`
contains an unrecognized flag yet is not a usage error — `--unknown` is
taken as the file path, and with a readable file of content 41 the run
exits 0 printing a count. -/
theorem unrecognized_flag_becomes_file :
    (parse_args [str "siggrep", str "--pattern", str "41", str "--unknown"]).map
        (fun a => (a.file, a.sigs)) = some (str "--unknown", [[(65, true)]]) ∧
      wmain [str "siggrep", str "--pattern", str "41", str "--unknown"]
        (fun p => some [65]) = (0, "1\n", Out.ok) := by
  constructor
  · decide
  · decide

lemma print_counts_eq : ∀ l : List Nat, l ≠ [] →
    print_counts l = joinCommas (l.map toString) ++ "\n" := by
  intro l
  induction l with
  | nil => intro h; exact absurd rfl h
  | cons c rest ih =>
    intro _
    cases rest with
    | nil => simp [print_counts, joinCommas]
    | cons d ds =>
      simp only [print_counts, List.map_cons, joinCommas]
      rw [ih (by simp)]
      exact (String.append_assoc (toString c ++ ",") _ "\n").symm

/-- C8: on a successful run (arguments parse, file reads), standard output
is exactly the counts of all supplied signatures in command-line order, as
decimal integers joined by commas with no trailing comma and terminated by
a newline, with exit code 0. -/
theorem stdout_single_line (argv : List (List Nat)) (r : List Nat → Option (List Nat))
    (a : Arguments) (buf : List Nat) (hp : parse_args argv = some a)
    (hr : r a.file = some buf) :
    wmain argv r = (0, spec_output (a.sigs.map (fun s => count_sig buf s)), Out.ok) := by
  have hs : a.sigs ≠ [] := parse_args_go_sigs_ne_nil _ _ _ _ _ hp
  simp only [wmain, hp, hr]
  rw [print_counts_eq _ (by simpa using hs)]
  rfl

/-- C8 witness: two signatures each counting once print exactly "1,1\n". -/
theorem stdout_single_line_witness :
    wmain [str "siggrep", str "--pattern", str "41", str "--pattern", str "42", str "f"]
        (fun p => some [65, 66]) = (0, "1,1\n", Out.ok) := by
  rw [stdout_single_line _ _ ⟨str "f", [[(65, true)], [(66, true)]]⟩ [65, 66]
    (by decide) rfl]
  decide

end Siggrep
